import Mathlib

/-!
Verification development for the basefmt whitespace-normalisation tool.

The Rust sources are embedded shallowly:
* `format_content` (src/format.rs) works over `Str := List Char`; the
  iterator `str::lines` is modelled by `lines` below, following the Rust
  standard library semantics (split inclusive at the newline character,
  then strip the trailing newline and, when one was stripped, a trailing
  carriage return).
* the EditorConfig hierarchy resolver (src/editorconfig.rs) is embedded
  with directories as component lists (`FsPath := List String`); the glob
  matcher is an external capability and is therefore a parameter
  (`GlobMatch`); the `Properties` map of ec4rs is modelled as a journal of
  insertions whose lookup returns the most recent value for a key, which
  is observationally the behaviour of insert-overwrite.
* the runner and config loader (src/runner.rs, src/config.rs) are embedded
  with the file system abstracted into explicit data (`TomlSource`,
  `FileRead`): each constructor corresponds to one outcome of the real
  I/O call that the Rust code branches on.
-/

/-! ## Content transformer (src/format.rs) -/

abbrev Str := List Char

/-- Formatting rules resolved from EditorConfig (struct `FormatRules`,
src/editorconfig.rs). -/
structure FormatRules where
  ensure_final_newline : Bool
  remove_trailing_spaces : Bool
  remove_leading_newlines : Bool
deriving DecidableEq, Repr

/-- Default `FormatRules`: every flag off (derive `Default` in Rust). -/
def FormatRules.default : FormatRules :=
  { ensure_final_newline := false
    remove_trailing_spaces := false
    remove_leading_newlines := false }

/-- Rust `str::split_inclusive('\n')`: chunks of the string, each ending
with the newline character except possibly the last. -/
def splitInclusive : Str → List Str
  | [] => []
  | c :: rest =>
    if c = '\n' then [c] :: splitInclusive rest
    else
      match splitInclusive rest with
      | [] => [[c]]
      | l :: ls => (c :: l) :: ls

/-- The map applied by Rust `str::lines` to each inclusive chunk: strip a
trailing newline, and when one was stripped also strip a trailing
carriage return. -/
def stripLineEnding (l : Str) : Str :=
  match l.getLast? with
  | some c =>
    if c = '\n' then
      let l' := l.dropLast
      match l'.getLast? with
      | some c2 => if c2 = '\r' then l'.dropLast else l'
      | none => l'
    else l
  | none => l

/-- Rust `str::lines`. -/
def lines (s : Str) : List Str :=
  (splitInclusive s).map stripLineEnding

/-- The `while lines.last().is_some_and(|line| line.is_empty()) { lines.pop(); }`
loop of `format_content`: drop all-empty lines from the end. -/
def dropTrailingEmpties (ls : List Str) : List Str :=
  (ls.reverse.dropWhile (fun l => l.isEmpty)).reverse

/-- Whitespace predicate of Rust `char::is_whitespace` (Unicode property
White_Space). -/
def rustIsWhitespace (c : Char) : Bool :=
  c.val = 0x20 || c.val = 0x09 || c.val = 0x0A || c.val = 0x0B ||
  c.val = 0x0C || c.val = 0x0D || c.val = 0x85 || c.val = 0xA0 ||
  c.val = 0x1680 || (0x2000 ≤ c.val && c.val ≤ 0x200A) ||
  c.val = 0x2028 || c.val = 0x2029 || c.val = 0x202F ||
  c.val = 0x205F || c.val = 0x3000

/-- Rust `str::trim_end`. -/
def trimEnd (l : Str) : Str :=
  (l.reverse.dropWhile rustIsWhitespace).reverse

/-- Embedding of `format_content` (src/format.rs, lines 185-231). -/
def format_content (content : Str) (rules : FormatRules) : Str :=
  if !rules.remove_leading_newlines && !rules.remove_trailing_spaces &&
      !rules.ensure_final_newline then
    content
  else
    let ls0 := lines content
    let ls1 :=
      if rules.remove_leading_newlines then
        ls0.dropWhile (fun l => l.isEmpty)
      else ls0
    let ls2 := dropTrailingEmpties ls1
    if ls2.isEmpty then []
    else
      let body :=
        List.intercalate ['\n']
          (if rules.remove_trailing_spaces then ls2.map trimEnd else ls2)
      if rules.ensure_final_newline then body ++ ['\n'] else body

/-- All three rules enabled. -/
def allRules : FormatRules :=
  { ensure_final_newline := true
    remove_trailing_spaces := true
    remove_leading_newlines := true }

example : lines "a\nb\n".toList = ["a".toList, "b".toList] := by decide
example : lines "a\r\nb".toList = ["a".toList, "b".toList] := by decide
example : lines "\n\n".toList = [[], []] := by decide
example : format_content "\n\nfoo  \nbar\n\n\n".toList allRules = "foo\nbar\n".toList := by decide
example : format_content "a\n ".toList ⟨false, true, false⟩ = "a\n".toList := by decide
example : format_content "a\n".toList ⟨false, true, false⟩ = "a".toList := by decide

/-! ## EditorConfig hierarchy resolver (src/editorconfig.rs)

Paths are lists of components from the filesystem root; `[]` is the root
directory, whose `parent()` is `None` in Rust. The ec4rs glob matcher is
an external library capability, passed in as `GlobMatch`. `Properties`
is modelled as a journal of `(key, value)` insertions; `lookupProp`
returns the value of the most recent insertion for a key, which is the
observable behaviour of the insert-overwrite map of ec4rs. -/

abbrev FsPath := List String

/-- Glob-matching capability: pattern, path relative to the config's
directory, result. -/
abbrev GlobMatch := String → FsPath → Bool

/-- Rust `FsPath::parent`: the root directory has no parent. -/
def parentOf : FsPath → Option FsPath
  | [] => none
  | p@(_ :: _) => some p.dropLast

/-- One section of an `.editorconfig` file: a glob pattern and the
`key = value` pairs declared under it, in declaration order. -/
structure ECSection where
  pattern : String
  props : List (String × String)
deriving DecidableEq, Repr

/-- One parsed `.editorconfig` file (struct `ParsedConfig` without its
directory, which the resolver supplies): the `root` flag and the ordered
sections. -/
structure DirConfig where
  is_root : Bool
  sections : List ECSection
deriving DecidableEq, Repr

/-- Journal model of the ec4rs `Properties` map. -/
abbrev Props := List (String × String)

/-- One `props.insert(key, value)` call. -/
def insertProp (props : Props) (kv : String × String) : Props :=
  props ++ [kv]

/-- Lookup in `Properties`: the most recently inserted value for the key. -/
def lookupProp (props : Props) (k : String) : Option String :=
  (props.reverse.find? (fun p => p.1 == k)).map (fun p => p.2)

/-- Rust `file_path.strip_prefix(dir).unwrap_or(file_path)`. -/
def stripDir (dir file : FsPath) : FsPath :=
  if dir.isPrefixOf file then file.drop dir.length else file

/-- ec4rs `Section::apply_to`: if the section's pattern matches the
relative path, insert every property of the section in order. -/
def ECSection.apply_to (gm : GlobMatch) (s : ECSection) (props : Props)
    (rel : FsPath) : Props :=
  if gm s.pattern rel then s.props.foldl insertProp props else props

/-- Embedding of `ParsedConfig::apply_to` (src/editorconfig.rs, lines
162-169): relativise the file path to the config's directory and apply
every section in declaration order. -/
def DirConfig.apply_to (gm : GlobMatch) (dir : FsPath) (cfg : DirConfig)
    (props : Props) (file : FsPath) : Props :=
  let rel := stripDir dir file
  cfg.sections.foldl (fun acc s => s.apply_to gm acc rel) props

/-- One step of `stack_for_dir`: append the directory's own config, after
clearing the inherited stack when that config declares `root = true`. -/
def pushOwn (cfgOf : FsPath → Option DirConfig) (dir : FsPath)
    (inherited : List (FsPath × DirConfig)) : List (FsPath × DirConfig) :=
  match cfgOf dir with
  | none => inherited
  | some cfg => (if cfg.is_root then [] else inherited) ++ [(dir, cfg)]

/-- Recursion of `EditorConfigCache::stack_for_dir` on the reversed
component list (so that taking the parent is structural). -/
def stackAux (cfgOf : FsPath → Option DirConfig) : List String →
    List (FsPath × DirConfig)
  | [] => pushOwn cfgOf [] []
  | revDir@(_ :: parentRev) =>
    pushOwn cfgOf revDir.reverse (stackAux cfgOf parentRev)

/-- Embedding of `EditorConfigCache::stack_for_dir` (src/editorconfig.rs,
lines 82-104), with the memoisation cache elided: the stack of configs
applying to a directory, root-to-leaf. `cfgOf` abstracts
`load_config_for_dir`: the parse result (`None` covers both a missing
and an unparsable file, exactly as in the Rust code). -/
def stack_for_dir (cfgOf : FsPath → Option DirConfig) (dir : FsPath) :
    List (FsPath × DirConfig) :=
  stackAux cfgOf dir.reverse

/-- Value interpretation shared by the three rule properties: enabled
exactly when the raw value is `true` case-insensitively (`parse_bool_value`
and the ec4rs typed boolean parse; `unset` and garbage parse to false). -/
def parseBoolTrue (v : String) : Bool :=
  v.toLower == "true"

/-- Embedding of `rules_from_properties` (src/editorconfig.rs, lines
171-203). -/
def rules_from_properties (props : Props) : FormatRules :=
  { ensure_final_newline :=
      ((lookupProp props "insert_final_newline").map parseBoolTrue).getD false
    remove_trailing_spaces :=
      ((lookupProp props "trim_trailing_whitespace").map parseBoolTrue).getD false
    remove_leading_newlines :=
      ((lookupProp props "trim_leading_newlines").map parseBoolTrue).getD false }

/-- The `Properties` accumulated for a file by `rules_for`: every config
of the parent directory's stack applied in order. -/
def fileProps (gm : GlobMatch) (cfgOf : FsPath → Option DirConfig)
    (file : FsPath) : Props :=
  match parentOf file with
  | none => []
  | some par =>
    (stack_for_dir cfgOf par).foldl
      (fun acc dc => DirConfig.apply_to gm dc.1 dc.2 acc file) []

/-- Embedding of `EditorConfigCache::rules_for` (src/editorconfig.rs,
lines 65-80), with the `rules_cache` memoisation elided. -/
def rules_for (gm : GlobMatch) (cfgOf : FsPath → Option DirConfig)
    (canonical_path : FsPath) : FormatRules :=
  rules_from_properties (fileProps gm cfgOf canonical_path)

/-- Embedding of `get_format_rules` (src/editorconfig.rs, lines 40-48).
`canonicalize` abstracts `FsPath::canonicalize`: `none` is the `Err` case. -/
def get_format_rules (canonicalize : FsPath → Option FsPath) (gm : GlobMatch)
    (cfgOf : FsPath → Option DirConfig) (path : FsPath) : FormatRules :=
  match canonicalize path with
  | some resolved => rules_for gm cfgOf resolved
  | none => FormatRules.default

/-! ## File operations (src/format.rs) and runner (src/runner.rs, src/config.rs)

The file system is abstracted into explicit data: `FileRead` is the
outcome of opening and reading one file to a string (`ok` valid text,
`invalidUtf8` the `io::ErrorKind::InvalidData` branch, `readError` any
other I/O error), and `TomlSource` is the state of `.basefmt.toml` at the
configuration root. -/

/-- Enum `FormatResult` (src/format.rs). -/
inductive FormatResult where
  | Changed
  | Unchanged
  | Skipped
deriving DecidableEq, Repr

/-- Enum `CheckResult` (src/format.rs). -/
inductive CheckResult where
  | Formatted
  | NeedsFormatting
  | Skipped
deriving DecidableEq, Repr

/-- Error kinds distinguished by the embedded code paths. -/
inductive IOErrorKind where
  | invalidData
  | invalidInput
  | other
deriving DecidableEq, Repr

/-- Outcome of opening a file and reading it to a string. -/
inductive FileRead where
  | ok (content : Str)
  | invalidUtf8
  | readError
deriving DecidableEq, Repr

/-- Embedding of `read_and_format_with_rules` (src/format.rs, lines
29-49): valid text yields the original and formatted contents, invalid
UTF-8 yields `none` (binary file, skipped silently), any other read
error propagates. -/
def read_and_format_with_rules (fr : FileRead) (rules : FormatRules) :
    Except IOErrorKind (Option (Str × Str)) :=
  match fr with
  | .ok content => .ok (some (content, format_content content rules))
  | .invalidUtf8 => .ok none
  | .readError => .error .other

/-- Embedding of `write_formatted_output` (src/format.rs, lines
110-134): `changed = original != formatted`; when the contents are
equal no file operation is attempted and the call cannot fail, and when
they differ the temp-file create / `write_all` / `sync_all` /
`set_permissions` / `persist` sequence runs, any failure of which
propagates as `Err`. `writeErr` is the outcome of that sequence if it
were attempted (`none` = success). On success the result is `changed`
paired with the bytes written (`none` = file untouched). -/
def write_formatted_output (writeErr : Option IOErrorKind)
    (original formatted : Str) :
    Except IOErrorKind (Bool × Option Str) :=
  if original ≠ formatted then
    match writeErr with
    | some e => .error e
    | none => .ok (true, some formatted)
  else
    .ok (false, none)

/-- Embedding of `format_file_with_rules` (src/format.rs, lines 94-108):
read errors and write errors both propagate (the `?` operators); the
second result component records the write effect (`none` = file
untouched). -/
def format_file_with_rules (fr : FileRead) (writeErr : Option IOErrorKind)
    (rules : FormatRules) :
    Except IOErrorKind (FormatResult × Option Str) :=
  match read_and_format_with_rules fr rules with
  | .error e => .error e
  | .ok none => .ok (.Skipped, none)
  | .ok (some (content, formatted)) =>
    match write_formatted_output writeErr content formatted with
    | .error e => .error e
    | .ok wr => if wr.1 then .ok (.Changed, wr.2) else .ok (.Unchanged, wr.2)

/-- Embedding of `check_file_with_rules` (src/format.rs, lines 170-183). -/
def check_file_with_rules (fr : FileRead) (rules : FormatRules) :
    Except IOErrorKind CheckResult :=
  match read_and_format_with_rules fr rules with
  | .error e => .error e
  | .ok none => .ok .Skipped
  | .ok (some (content, formatted)) =>
    if content = formatted then .ok .Formatted else .ok .NeedsFormatting

/-- Per-file accounting of the `run_format` loop (src/runner.rs, lines
88-102): only an `Err` bumps the error counter. -/
def format_step (errCount : Nat)
    (res : Except IOErrorKind (FormatResult × Option Str)) : Nat :=
  match res with
  | .error _ => errCount + 1
  | .ok _ => errCount

/-- Per-file accounting of the `run_check` loop (src/runner.rs, lines
153-181): counts are `(error_count, unformatted_count)`. -/
def check_step (counts : Nat × Nat)
    (res : Except IOErrorKind CheckResult) : Nat × Nat :=
  match res with
  | .ok .Formatted => counts
  | .ok .Skipped => counts
  | .ok .NeedsFormatting => (counts.1, counts.2 + 1)
  | .error _ => (counts.1 + 1, counts.2)

/-- Struct `RunnerResult` (src/runner.rs). -/
structure RunnerResult where
  total_files : Nat
  error_count : Nat
  unformatted_count : Nat
deriving DecidableEq, Repr

/-- Embedding of `RunnerResult::exit_code` (src/runner.rs, lines 27-35). -/
def RunnerResult.exit_code (r : RunnerResult) : Nat :=
  if r.error_count > 0 then 2
  else if r.unformatted_count > 0 then 1
  else 0

/-- Exclude configuration data parsed from `.basefmt.toml` (struct
`Config`, src/config.rs, without the derived glob-matcher cache). -/
structure ConfigData where
  exclude : List String
deriving DecidableEq, Repr

/-- Default `Config`: no exclusions. -/
def ConfigData.default : ConfigData := ⟨[]⟩

/-- State of `.basefmt.toml` at the configuration root. -/
inductive TomlSource where
  | absent
  | unreadable
  | malformed
  | parsed (exclude : List String)
deriving DecidableEq, Repr

/-- Embedding of `Config::load` (src/config.rs, lines 33-47): missing
file yields the default config, a read failure propagates, a TOML parse
failure is an `InvalidData` error. -/
def ConfigData.load (t : TomlSource) : Except IOErrorKind ConfigData :=
  match t with
  | .absent => .ok ConfigData.default
  | .unreadable => .error .other
  | .malformed => .error .invalidData
  | .parsed ex => .ok ⟨ex⟩

/-- The `Config::load(config_dir).unwrap_or_default()` expression of
`run_format` and `run_check` (src/runner.rs, lines 74 and 138). -/
def configForRun (t : TomlSource) : ConfigData :=
  match ConfigData.load t with
  | .ok c => c
  | .error _ => ConfigData.default

/-- Embedding of `run_format` (src/runner.rs, lines 72-109). File
discovery is abstracted into its result `findResult`: per file, its
path, the outcome of reading it and the outcome of its write sequence
if one were attempted; exclusion matching (globset, an external
capability) is the parameter `isExcluded`; `rulesOf` stands for the
per-file EditorConfig resolution of `collect_tasks`. Parallel and
sequential dispatch aggregate the same counts, so the fold models both
branches. -/
def run_format_model (t : TomlSource)
    (findResult :
      Except IOErrorKind (List (FsPath × FileRead × Option IOErrorKind)))
    (isExcluded : ConfigData → FsPath → Bool)
    (rulesOf : FsPath → FormatRules) : Except IOErrorKind RunnerResult :=
  let config := configForRun t
  match findResult with
  | .error e => .error e
  | .ok files =>
    let tasks := files.filter (fun f => !isExcluded config f.1)
    let errs := tasks.foldl
      (fun n task =>
        format_step n (format_file_with_rules task.2.1 task.2.2 (rulesOf task.1))) 0
    .ok { total_files := tasks.length
          error_count := errs
          unformatted_count := 0 }

/-! ## Claim theorems: content transformer -/

/-- C1 (amended): with all three flags false, `format_content` returns
the input unchanged — a byte-exact no-op; no blank-line stripping or
trailing-newline collapsing occurs. -/
theorem c1_allfalse_passthrough (content : Str) :
    format_content content FormatRules.default = content := rfl

/-- C1 counterexample: with all flags false the output equals the input,
so the trailing all-empty lines of `"a\n\n\n"` are not dropped — the
line sequence of the output still ends with an empty line, and dropping
the trailing empties would change it. -/
theorem c1_counterexample :
    format_content "a\n\n\n".toList FormatRules.default = "a\n\n\n".toList ∧
    (lines (format_content "a\n\n\n".toList FormatRules.default)).getLast?
      = some [] ∧
    dropTrailingEmpties (lines (format_content "a\n\n\n".toList FormatRules.default))
      ≠ lines (format_content "a\n\n\n".toList FormatRules.default) := by
  decide

/-- C2: `format_content` is not idempotent. On input `"a\n "` with
`remove_trailing_spaces` enabled, trimming turns the final line `" "`
into an empty line after the trailing-empty-line drop has already run,
so the first pass yields `"a\n"` and a second pass yields `"a"`; with
all three rules enabled the first pass even yields `"a\n\n"`, two final
newlines, against the documented single final newline. -/
theorem c2_not_idempotent :
    format_content "a\n ".toList ⟨false, true, false⟩ = "a\n".toList ∧
    format_content (format_content "a\n ".toList ⟨false, true, false⟩)
        ⟨false, true, false⟩
      ≠ format_content "a\n ".toList ⟨false, true, false⟩ ∧
    format_content "a\n ".toList allRules = "a\n\n".toList ∧
    format_content (format_content "a\n ".toList allRules) allRules
      ≠ format_content "a\n ".toList allRules := by
  decide

/-- C5: the end-to-end example input with all three rules enabled is
formatted to exactly `"foo\nbar\n"`. -/
theorem c5_end_to_end :
    format_content "\n\nfoo  \nbar\n\n\n".toList allRules = "foo\nbar\n".toList := by
  decide

/-! ## Claim theorems: error handling and runner -/

/-- C7: when canonicalization of the path fails, `get_format_rules`
returns the all-false default `FormatRules`; no error is reported (the
function has no error channel). -/
theorem c7_canonicalize_failure (canonicalize : FsPath → Option FsPath)
    (gm : GlobMatch) (cfgOf : FsPath → Option DirConfig) (path : FsPath)
    (h : canonicalize path = none) :
    get_format_rules canonicalize gm cfgOf path = FormatRules.default := by
  simp [get_format_rules, h]

/-- Witness for C7 at a concrete failing canonicalization. -/
theorem c7_canonicalize_failure_witness :
    get_format_rules (fun _ => none) (fun _ _ => true) (fun _ => none)
      ["missing.txt"] = FormatRules.default :=
  c7_canonicalize_failure (fun _ => none) (fun _ _ => true) (fun _ => none)
    ["missing.txt"] rfl

/-- C8: a file whose content is invalid UTF-8 is detected before any
transformation: formatting returns `Skipped` and writes nothing,
checking returns `Skipped`, and neither runner loop counts the file as
an error or as unformatted. -/
theorem c8_binary_skipped (rules : FormatRules)
    (writeErr : Option IOErrorKind) (ec uc : Nat) :
    read_and_format_with_rules .invalidUtf8 rules = .ok none ∧
    format_file_with_rules .invalidUtf8 writeErr rules = .ok (.Skipped, none) ∧
    check_file_with_rules .invalidUtf8 rules = .ok .Skipped ∧
    check_step (ec, uc) (check_file_with_rules .invalidUtf8 rules) = (ec, uc) ∧
    format_step ec (format_file_with_rules .invalidUtf8 writeErr rules) = ec :=
  ⟨rfl, rfl, rfl, rfl, rfl⟩

/-- C9: `exit_code` is 2 whenever errors occurred, otherwise 1 whenever
files were unformatted, otherwise 0, and no other code is produced. -/
theorem c9_exit_code (r : RunnerResult) :
    (0 < r.error_count → r.exit_code = 2) ∧
    (r.error_count = 0 → 0 < r.unformatted_count → r.exit_code = 1) ∧
    (r.error_count = 0 → r.unformatted_count = 0 → r.exit_code = 0) ∧
    (r.exit_code = 0 ∨ r.exit_code = 1 ∨ r.exit_code = 2) := by
  rcases r with ⟨t, e, u⟩
  refine ⟨?_, ?_, ?_, ?_⟩ <;>
    simp only [RunnerResult.exit_code] <;> split_ifs <;> omega

/-- Witness for C9: errors take precedence over unformatted files. -/
theorem c9_exit_code_witness :
    RunnerResult.exit_code ⟨5, 1, 2⟩ = 2 :=
  (c9_exit_code ⟨5, 1, 2⟩).1 (by decide)

/-- C10 counterexample: the claimed correspondence is not unconditional.
On a readable file that needs formatting, when the temp-file write
sequence fails, `check_file_with_rules` still reports `NeedsFormatting`
while `format_file_with_rules` returns the write error rather than
`Changed`. -/
theorem c10_counterexample :
    check_file_with_rules (.ok "a".toList) allRules = .ok .NeedsFormatting ∧
    format_file_with_rules (.ok "a".toList) (some .other) allRules
      = .error .other :=
  ⟨rfl, rfl⟩

/-- C10 (amended): for the same read outcome and rules, check and format
agree on `Formatted` versus `Unchanged` and on `Skipped` versus
`Skipped` for every write outcome (in those cases no write is
attempted, in the model as in the program); and provided the write
sequence succeeds, `NeedsFormatting` holds exactly when formatting
reports `Changed` — when the write fails, formatting returns that error
instead. -/
theorem c10_check_format_agree (fr : FileRead)
    (writeErr : Option IOErrorKind) (rules : FormatRules) :
    (check_file_with_rules fr rules = .ok .Formatted ↔
      format_file_with_rules fr writeErr rules = .ok (.Unchanged, none)) ∧
    (check_file_with_rules fr rules = .ok .Skipped ↔
      format_file_with_rules fr writeErr rules = .ok (.Skipped, none)) ∧
    (writeErr = none →
      (check_file_with_rules fr rules = .ok .NeedsFormatting ↔
        (∃ w, format_file_with_rules fr writeErr rules = .ok (.Changed, w)))) := by
  cases fr with
  | ok content =>
    simp only [check_file_with_rules, format_file_with_rules,
      read_and_format_with_rules, write_formatted_output]
    by_cases h : content = format_content content rules
    · simp [← h]
    · cases writeErr <;> simp [h]
  | invalidUtf8 =>
    simp [check_file_with_rules, format_file_with_rules,
      read_and_format_with_rules]
  | readError =>
    simp [check_file_with_rules, format_file_with_rules,
      read_and_format_with_rules]

/-- Witness for C10 (amended), discharging the write-success hypothesis
at a concrete file that needs formatting. -/
theorem c10_check_format_agree_witness :
    check_file_with_rules (.ok "b".toList) allRules = .ok .NeedsFormatting :=
  ((c10_check_format_agree (.ok "b".toList) none allRules).2.2 rfl).mpr
    ⟨some "b\n".toList, rfl⟩

/-- C6 counterexample: with a malformed `.basefmt.toml`, `Config::load`
does return an error, but the runner swallows it via
`unwrap_or_default`: the run is not stopped, the effective
configuration has no exclusions, and the single file is processed. -/
theorem c6_counterexample :
    ConfigData.load .malformed = .error .invalidData ∧
    configForRun .malformed = ConfigData.default ∧
    run_format_model .malformed
        (.ok [(["vendor", "lib.js"], .ok "x".toList, none)])
        (fun c _ => !c.exclude.isEmpty)
        (fun _ => allRules)
      = .ok ⟨1, 0, 0⟩ :=
  ⟨rfl, rfl, rfl⟩

/-- C6 (amended): a load failure of the exclude configuration is not
fatal: `run_format` replaces the errored `Config::load` result with the
default no-exclusions configuration and behaves exactly as if no
configuration file existed. -/
theorem c6_load_error_ignored (t : TomlSource) (e : IOErrorKind)
    (findResult :
      Except IOErrorKind (List (FsPath × FileRead × Option IOErrorKind)))
    (isExcluded : ConfigData → FsPath → Bool)
    (rulesOf : FsPath → FormatRules)
    (h : ConfigData.load t = .error e) :
    configForRun t = ConfigData.default ∧
    run_format_model t findResult isExcluded rulesOf =
      run_format_model .absent findResult isExcluded rulesOf := by
  have hc : configForRun t = ConfigData.default := by
    simp [configForRun, h]
  refine ⟨hc, ?_⟩
  have ha : configForRun .absent = ConfigData.default := rfl
  simp only [run_format_model, hc, ha]

/-- Witness for C6 (amended) at a concrete malformed configuration. -/
theorem c6_load_error_ignored_witness :
    configForRun .malformed = ConfigData.default ∧
    run_format_model .malformed (.ok [(["a.txt"], .ok "x".toList, none)])
        (fun _ _ => false) (fun _ => allRules) =
      run_format_model .absent (.ok [(["a.txt"], .ok "x".toList, none)])
        (fun _ _ => false) (fun _ => allRules) :=
  c6_load_error_ignored .malformed .invalidData
    (.ok [(["a.txt"], .ok "x".toList, none)]) (fun _ _ => false)
    (fun _ => allRules) rfl

/-! ## Claim theorems: hierarchy resolution (C3, C4)

Helper combinator and lemmas about property lookup through section and
config application. `orOpt a b` is `a` when set, else `b`: the
left-biased choice used to state override semantics. -/

def orOpt (a b : Option String) : Option String :=
  match a with
  | some v => some v
  | none => b

lemma orOpt_none_left (b : Option String) : orOpt none b = b := rfl

lemma orOpt_some_left (v : String) (b : Option String) :
    orOpt (some v) b = some v := rfl

lemma orOpt_none_right (a : Option String) : orOpt a none = a := by
  cases a <;> rfl

lemma orOpt_assoc (a b c : Option String) :
    orOpt (orOpt a b) c = orOpt a (orOpt b c) := by
  cases a <;> rfl

lemma foldl_insertProp (l : List (String × String)) (acc : Props) :
    l.foldl insertProp acc = acc ++ l := by
  induction l generalizing acc with
  | nil => simp
  | cons kv rest ih =>
    rw [List.foldl_cons, ih]
    simp [insertProp]

lemma lookupProp_append (l₁ l₂ : Props) (k : String) :
    lookupProp (l₁ ++ l₂) k = orOpt (lookupProp l₂ k) (lookupProp l₁ k) := by
  unfold lookupProp orOpt
  rw [List.reverse_append, List.find?_append]
  cases l₂.reverse.find? (fun p => p.1 == k) <;> simp

lemma lookupProp_section (gm : GlobMatch) (s : ECSection) (props : Props)
    (rel : FsPath) (k : String) :
    lookupProp (s.apply_to gm props rel) k =
      if gm s.pattern rel then orOpt (lookupProp s.props k) (lookupProp props k)
      else lookupProp props k := by
  unfold ECSection.apply_to
  cases hm : gm s.pattern rel <;>
    simp [hm, foldl_insertProp, lookupProp_append]

/-- Value that the matching sections of one config file, applied in
declaration order, assign to a key (later matching sections override
earlier ones); `none` when no matching section sets the key. -/
def sectionValue (gm : GlobMatch) (cfg : DirConfig) (rel : FsPath)
    (k : String) : Option String :=
  cfg.sections.foldl
    (fun acc s =>
      if gm s.pattern rel then orOpt (lookupProp s.props k) acc else acc)
    none

lemma sectionValue_shift (gm : GlobMatch) (secs : List ECSection)
    (rel : FsPath) (k : String) (a : Option String) :
    secs.foldl
        (fun acc s =>
          if gm s.pattern rel then orOpt (lookupProp s.props k) acc else acc) a
      = orOpt
        (secs.foldl
          (fun acc s =>
            if gm s.pattern rel then orOpt (lookupProp s.props k) acc else acc)
          none) a := by
  induction secs generalizing a with
  | nil => simp [orOpt]
  | cons s rest ih =>
    rw [List.foldl_cons, List.foldl_cons]
    cases hm : gm s.pattern rel
    · simp only [hm, Bool.false_eq_true, if_false]
      exact ih a
    · simp only [hm, if_true]
      rw [ih (orOpt (lookupProp s.props k) a),
        ih (orOpt (lookupProp s.props k) none),
        orOpt_none_right, orOpt_assoc]

lemma lookupProp_applySections (gm : GlobMatch) (secs : List ECSection)
    (rel : FsPath) (props : Props) (k : String) :
    lookupProp (secs.foldl (fun acc s => s.apply_to gm acc rel) props) k =
      orOpt
        (secs.foldl
          (fun acc s =>
            if gm s.pattern rel then orOpt (lookupProp s.props k) acc else acc)
          none)
        (lookupProp props k) := by
  induction secs generalizing props with
  | nil => simp [orOpt]
  | cons s rest ih =>
    rw [List.foldl_cons, List.foldl_cons, ih (s.apply_to gm props rel),
      lookupProp_section]
    cases hm : gm s.pattern rel
    · simp [hm]
    · simp only [hm, if_true]
      rw [sectionValue_shift gm rest rel k
        (orOpt (lookupProp s.props k) none),
        orOpt_none_right, orOpt_assoc]

lemma lookupProp_config (gm : GlobMatch) (dir : FsPath) (cfg : DirConfig)
    (props : Props) (file : FsPath) (k : String) :
    lookupProp (DirConfig.apply_to gm dir cfg props file) k =
      orOpt (sectionValue gm cfg (stripDir dir file) k) (lookupProp props k) := by
  unfold DirConfig.apply_to sectionValue
  exact lookupProp_applySections gm cfg.sections (stripDir dir file) props k

lemma stackAux_cons (cfgOf : FsPath → Option DirConfig) (c : String)
    (rest : List String) :
    stackAux cfgOf (c :: rest) =
      pushOwn cfgOf ((c :: rest).reverse) (stackAux cfgOf rest) := rfl

lemma stack_for_dir_child (cfgOf : FsPath → Option DirConfig) (p : FsPath)
    (x : String) :
    stack_for_dir cfgOf (p ++ [x]) =
      pushOwn cfgOf (p ++ [x]) (stack_for_dir cfgOf p) := by
  show stackAux cfgOf (p ++ [x]).reverse = _
  have h : (p ++ [x]).reverse = x :: p.reverse := by simp
  rw [h, stackAux_cons]
  simp [stack_for_dir]

lemma pushOwn_congr (cfgOf₁ cfgOf₂ : FsPath → Option DirConfig)
    (dir : FsPath) (inh : List (FsPath × DirConfig))
    (h : cfgOf₁ dir = cfgOf₂ dir) :
    pushOwn cfgOf₁ dir inh = pushOwn cfgOf₂ dir inh := by
  unfold pushOwn
  rw [h]

lemma parentOf_eq_dropLast (p : FsPath) (h : p ≠ []) :
    parentOf p = some p.dropLast := by
  cases p with
  | nil => exact absurd rfl h
  | cons a l => rfl

lemma fileProps_parent (gm : GlobMatch) (cfgOf : FsPath → Option DirConfig)
    (file par : FsPath) (h : parentOf file = some par) :
    fileProps gm cfgOf file =
      (stack_for_dir cfgOf par).foldl
        (fun acc dc => DirConfig.apply_to gm dc.1 dc.2 acc file) [] := by
  unfold fileProps
  rw [h]

lemma stackAux_root_agree (cfgOf₁ cfgOf₂ : FsPath → Option DirConfig)
    (D : FsPath) (cfg : DirConfig)
    (hroot : cfg.is_root = true)
    (h1 : cfgOf₁ D = some cfg) (h2 : cfgOf₂ D = some cfg)
    (hagree : ∀ d : FsPath, D <+: d → cfgOf₁ d = cfgOf₂ d) :
    ∀ l : List String,
      stackAux cfgOf₁ (l ++ D.reverse) = stackAux cfgOf₂ (l ++ D.reverse) := by
  intro l
  induction l with
  | nil =>
    simp only [List.nil_append]
    cases hD : D.reverse with
    | nil =>
      have hDnil : D = [] := by
        have := congrArg List.reverse hD
        simpa using this
      rw [hDnil] at h1 h2
      simp only [stackAux]
      simp [pushOwn, h1, h2]
    | cons c rest =>
      rw [stackAux_cons, stackAux_cons]
      have hrev : (c :: rest).reverse = D := by
        rw [← hD, List.reverse_reverse]
      rw [hrev]
      simp [pushOwn, h1, h2, hroot]
  | cons c l ih =>
    rw [List.cons_append, stackAux_cons, stackAux_cons, ih]
    have hpre : D <+: (c :: (l ++ D.reverse)).reverse := by
      refine ⟨l.reverse ++ [c], ?_⟩
      simp
    exact pushOwn_congr cfgOf₁ cfgOf₂ _ _ (hagree _ hpre)

lemma stack_agree_under_root (cfgOf₁ cfgOf₂ : FsPath → Option DirConfig)
    (D : FsPath) (cfg : DirConfig)
    (hroot : cfg.is_root = true)
    (h1 : cfgOf₁ D = some cfg) (h2 : cfgOf₂ D = some cfg)
    (hagree : ∀ d : FsPath, D <+: d → cfgOf₁ d = cfgOf₂ d) :
    ∀ d : FsPath, D <+: d →
      stack_for_dir cfgOf₁ d = stack_for_dir cfgOf₂ d := by
  rintro d ⟨t, rfl⟩
  unfold stack_for_dir
  rw [List.reverse_append]
  exact stackAux_root_agree cfgOf₁ cfgOf₂ D cfg hroot h1 h2 hagree t.reverse

/-- C3: for every file strictly below a directory `D` whose own config
declares `root = true`, resolution ignores everything above `D`: two
config layouts that agree on `D` and on every directory below it give
the same resolved rules, no matter what the ancestors of `D` declare. -/
theorem c3_root_truncates (gm : GlobMatch)
    (cfgOf₁ cfgOf₂ : FsPath → Option DirConfig)
    (D : FsPath) (cfg : DirConfig) (file : FsPath)
    (hroot : cfg.is_root = true)
    (h1 : cfgOf₁ D = some cfg)
    (hagree : ∀ d : FsPath, D <+: d → cfgOf₁ d = cfgOf₂ d)
    (hunder : D <+: file) (hne : file ≠ D) :
    rules_for gm cfgOf₁ file = rules_for gm cfgOf₂ file := by
  have h2 : cfgOf₂ D = some cfg := (hagree D (List.prefix_refl D)).symm.trans h1
  obtain ⟨t, rfl⟩ := hunder
  have ht : t ≠ [] := by
    rintro rfl
    simp at hne
  obtain ⟨t', y, rfl⟩ : ∃ t' y, t = t' ++ [y] := by
    rcases List.eq_nil_or_concat t with h | ⟨t', y, h⟩
    · exact absurd h ht
    · exact ⟨t', y, by simpa [List.concat_eq_append] using h⟩
  have hparent : parentOf (D ++ (t' ++ [y])) = some (D ++ t') := by
    have hne2 : D ++ (t' ++ [y]) ≠ [] := by simp
    rw [parentOf_eq_dropLast _ hne2]
    congr 1
    rw [← List.append_assoc, List.dropLast_concat]
  have hstack := stack_agree_under_root cfgOf₁ cfgOf₂ D cfg hroot h1 h2 hagree
    (D ++ t') ⟨t', rfl⟩
  unfold rules_for
  rw [fileProps_parent gm cfgOf₁ _ _ hparent,
    fileProps_parent gm cfgOf₂ _ _ hparent, hstack]

/-- Concrete glob matcher used by the witnesses: matches every path, as
the pattern `*` in the repository's own tests would for files directly
inside the config's directory. -/
def gmAll : GlobMatch := fun _ _ => true

/-- Witness config for C3: root-flagged config in directory `proj`. -/
def rootCfgC3 : DirConfig :=
  ⟨true, [⟨"*", [("insert_final_newline", "true")]⟩]⟩

/-- Witness config for C3: conflicting ancestor config at the filesystem
root. -/
def ancCfgC3 : DirConfig :=
  ⟨false, [⟨"*", [("insert_final_newline", "false"),
                  ("trim_leading_newlines", "true")]⟩]⟩

/-- Witness layout with the conflicting ancestor present. -/
def cfgC3a : FsPath → Option DirConfig := fun d =>
  if d = ([] : FsPath) then some ancCfgC3
  else if d = ["proj"] then some rootCfgC3
  else none

/-- Witness layout with no ancestor config at all. -/
def cfgC3b : FsPath → Option DirConfig := fun d =>
  if d = ["proj"] then some rootCfgC3 else none

/-- Witness for C3: with `root = true` in `proj`, the conflicting config
above `proj` does not change the rules resolved for `proj/file.txt`. -/
theorem c3_root_truncates_witness :
    rules_for gmAll cfgC3a ["proj", "file.txt"] =
      rules_for gmAll cfgC3b ["proj", "file.txt"] := by
  refine c3_root_truncates gmAll cfgC3a cfgC3b ["proj"] rootCfgC3
    ["proj", "file.txt"] rfl (by decide) ?_ ⟨["file.txt"], rfl⟩ (by decide)
  rintro d ⟨t, rfl⟩
  show cfgC3a ("proj" :: t) = cfgC3b ("proj" :: t)
  unfold cfgC3a cfgC3b
  rw [if_neg (by simp : ¬("proj" :: t : FsPath) = ([] : FsPath))]

/-- C4: when a child directory's config does not declare root, it is
appended to the ancestor stack (applied last, root-to-leaf); the
resolved value of each key is the child's value when some matching
child section sets it, and otherwise the value accumulated from the
ancestors alone; within one config file, a later matching section that
sets the key overrides everything declared earlier in that file. -/
theorem c4_child_override (gm : GlobMatch)
    (cfgOf : FsPath → Option DirConfig) (p : FsPath) (x : String)
    (ccfg : DirConfig) (file : FsPath) (k : String)
    (hc : cfgOf (p ++ [x]) = some ccfg)
    (hnr : ccfg.is_root = false)
    (hp : parentOf file = some (p ++ [x])) :
    stack_for_dir cfgOf (p ++ [x]) =
      stack_for_dir cfgOf p ++ [(p ++ [x], ccfg)] ∧
    lookupProp (fileProps gm cfgOf file) k =
      orOpt (sectionValue gm ccfg (stripDir (p ++ [x]) file) k)
        (lookupProp
          ((stack_for_dir cfgOf p).foldl
            (fun acc dc => DirConfig.apply_to gm dc.1 dc.2 acc file) [])
          k) ∧
    (∀ (pre : List ECSection) (s : ECSection) (v : String),
      ccfg.sections = pre ++ [s] →
      gm s.pattern (stripDir (p ++ [x]) file) = true →
      lookupProp s.props k = some v →
      sectionValue gm ccfg (stripDir (p ++ [x]) file) k = some v) := by
  have hstack : stack_for_dir cfgOf (p ++ [x]) =
      stack_for_dir cfgOf p ++ [(p ++ [x], ccfg)] := by
    rw [stack_for_dir_child]
    simp [pushOwn, hc, hnr]
  refine ⟨hstack, ?_, ?_⟩
  · rw [fileProps_parent gm cfgOf file (p ++ [x]) hp, hstack,
      List.foldl_append]
    simp only [List.foldl_cons, List.foldl_nil]
    exact lookupProp_config gm (p ++ [x]) ccfg _ file k
  · intro pre s v hsecs hm hv
    unfold sectionValue
    rw [hsecs, List.foldl_append]
    simp only [List.foldl_cons, List.foldl_nil]
    simp [hm, hv, orOpt_some_left]

/-- Witness child config for C4 (no root flag). -/
def childCfgC4 : DirConfig :=
  ⟨false, [⟨"*", [("trim_trailing_whitespace", "false")]⟩]⟩

/-- Witness ancestor config for C4. -/
def ancCfgC4 : DirConfig :=
  ⟨true, [⟨"*", [("insert_final_newline", "true"),
                 ("trim_trailing_whitespace", "true")]⟩]⟩

/-- Witness layout for C4: ancestor at the root, child in `sub`. -/
def cfgC4 : FsPath → Option DirConfig := fun d =>
  if d = ([] : FsPath) then some ancCfgC4
  else if d = ["sub"] then some childCfgC4
  else none

/-- Witness for C4: the non-root child config of `sub` is appended after
the ancestor stack. -/
theorem c4_child_override_witness :
    stack_for_dir cfgC4 ["sub"] =
      stack_for_dir cfgC4 [] ++ [(["sub"], childCfgC4)] :=
  (c4_child_override gmAll cfgC4 [] "sub" childCfgC4 ["sub", "f.txt"]
    "trim_trailing_whitespace" (by decide) rfl (by decide)).1
